import Mathlib

/-!
Verification of the boids-rs flocking simulation.

The per-frame simulation core (src/vec2.rs, src/boid.rs and the update
loop of src/state.rs) is embedded shallowly over the rationals.  The f32
square root has no exact rational counterpart, so every operation that
the source implements with `sqrt` takes an explicit oracle
`s : ℚ → ℚ`; theorems hypothesise that the oracle is a correct square
root exactly at the points where the source evaluates it.  The partition
arithmetic of `State::update` is additionally modelled bit-faithfully
with an exact round-to-nearest-even significand rounding, because the
partition claims are about genuine f32 rounding.
-/

namespace Boids

attribute [local semireducible] Rat.mul Rat.add Rat.sub Rat.inv Rat.ofScientific

/-- Two-dimensional vector over the rationals, from the struct Vec2 of src/vec2.rs. -/
structure Vec2 where
  x : ℚ
  y : ℚ
deriving DecidableEq, Repr

@[ext] theorem Vec2.ext_xy {v w : Vec2} (hx : v.x = w.x) (hy : v.y = w.y) : v = w := by
  cases v; cases w; simp_all

/-- Squared Euclidean norm, the argument of sqrt inside Vec2::length. -/
def Vec2.lengthSq (v : Vec2) : ℚ := v.x ^ 2 + v.y ^ 2

/-- Vec2::length of src/vec2.rs: sqrt of x^2 + y^2, with the sqrt supplied
by the oracle s. -/
def Vec2.length (s : ℚ → ℚ) (v : Vec2) : ℚ := s (v.x ^ 2 + v.y ^ 2)

/-- Vec2::normalize of src/vec2.rs: divide both components by the length,
substituting divisor 1.0 when the length is exactly zero. -/
def Vec2.normalize (s : ℚ → ℚ) (v : Vec2) : Vec2 :=
  let len := v.length s
  let len := if len = 0 then 1 else len
  ⟨v.x / len, v.y / len⟩

/-- Vec2::add of src/vec2.rs. -/
def Vec2.add (v o : Vec2) : Vec2 := ⟨v.x + o.x, v.y + o.y⟩

/-- Vec2::sub of src/vec2.rs. -/
def Vec2.sub (v o : Vec2) : Vec2 := ⟨v.x - o.x, v.y - o.y⟩

/-- Vec2::mul of src/vec2.rs. -/
def Vec2.mul (v : Vec2) (factor : ℚ) : Vec2 := ⟨v.x * factor, v.y * factor⟩

/-- Vec2::div of src/vec2.rs.  Over ℚ a division by zero yields 0 rather
than an IEEE non-finite value; the NaN-aware model below refines this
where a claim is about non-finite propagation. -/
def Vec2.div (v : Vec2) (factor : ℚ) : Vec2 := ⟨v.x / factor, v.y / factor⟩

/-- A boid, from the struct Boid of src/boid.rs. -/
structure Boid where
  location : Vec2
  vel : Vec2
deriving DecidableEq, Repr

/-- Boid::new_random of src/boid.rs, with the two uniform [0,1) draws of
rng.gen made explicit parameters. -/
def Boid.new_random (r1 r2 : ℚ) : Boid :=
  ⟨⟨0, 0⟩, ⟨r1 * 2 - 1, r2 * 2 - 1⟩⟩

/-- Boid::add_vel of src/boid.rs.  The argument vector is mutated in place
by the source (vel.mul(factor)), so the model returns the new boid
together with the mutated argument. -/
def Boid.add_vel (s : ℚ → ℚ) (b : Boid) (v : Vec2) (factor : ℚ) : Boid × Vec2 :=
  let v := v.mul factor
  (⟨b.location, (b.vel.add v).normalize s⟩, v)

/-- First boundary check of Boid::update: x below the low edge at -0.8. -/
def Boid.boundaryX1 (s : ℚ → ℚ) (b : Boid) : Boid :=
  if b.location.x < -0.8 then
    (b.add_vel s ⟨1, 0⟩ (((-b.location.x - 0.8) / 0.2) ^ 3)).1
  else b

/-- Second boundary check of Boid::update: x above the high edge at 0.8. -/
def Boid.boundaryX2 (s : ℚ → ℚ) (b : Boid) : Boid :=
  if b.location.x > 0.8 then
    (b.add_vel s ⟨-1, 0⟩ (((b.location.x - 0.8) / 0.2) ^ 3)).1
  else b

/-- Third boundary check of Boid::update: y below the low edge at -0.8. -/
def Boid.boundaryY1 (s : ℚ → ℚ) (b : Boid) : Boid :=
  if b.location.y < -0.8 then
    (b.add_vel s ⟨0, 1⟩ (((-b.location.y - 0.8) / 0.2) ^ 3)).1
  else b

/-- Fourth boundary check of Boid::update: y above the high edge at 0.8. -/
def Boid.boundaryY2 (s : ℚ → ℚ) (b : Boid) : Boid :=
  if b.location.y > 0.8 then
    (b.add_vel s ⟨0, -1⟩ (((b.location.y - 0.8) / 0.2) ^ 3)).1
  else b

/-- The four boundary checks of Boid::update in source order. -/
def Boid.boundary (s : ℚ → ℚ) (b : Boid) : Boid :=
  (((b.boundaryX1 s).boundaryX2 s).boundaryY1 s).boundaryY2 s

/-- Integration step of Boid::update: self.vel.mul(0.005) followed by
self.location.add(self.vel).  The velocity really is scaled in place
before being added to the position. -/
def Boid.integrate (b : Boid) : Boid :=
  ⟨b.location.add (b.vel.mul 0.005), b.vel.mul 0.005⟩

/-- Renormalization step of Boid::update: self.vel.normalize(). -/
def Boid.renorm (s : ℚ → ℚ) (b : Boid) : Boid :=
  ⟨b.location, b.vel.normalize s⟩

/-- Boid::update of src/boid.rs: the four boundary checks, integration,
renormalization, then the wander perturbation add_vel(random, 0.2), with
the two uniform [0,1) wander draws made explicit parameters. -/
def Boid.update (s : ℚ → ℚ) (b : Boid) (r1 r2 : ℚ) : Boid :=
  ((((b.boundary s).integrate).renorm s).add_vel s ⟨r1 * 2 - 1, r2 * 2 - 1⟩ 0.2).1

/-- Commit step for one agent, from lines 265..274 of src/state.rs:
boid.add_vel(boid_vel, 0.6) then boid.update().  Returns the updated boid
and the mutated force-buffer entry. -/
def commitStep (s : ℚ → ℚ) (b : Boid) (force : Vec2) (r1 r2 : ℚ) : Boid × Vec2 :=
  let p := b.add_vel s force 0.6
  ((p.1).update s r1 r2, p.2)

/-- The committed boid alone. -/
def commitBoid (s : ℚ → ℚ) (b : Boid) (force : Vec2) (r1 r2 : ℚ) : Boid :=
  (commitStep s b force r1 r2).1

/-- Neighbor radius RADIUS of State::update (0.03, idealised exactly). -/
def RADIUS : ℚ := 0.03

/-- Fallback boid standing for the unwrap on Vec::get in State::update;
claims only ever evaluate the model at in-bounds indices. -/
def defaultBoid : Boid := ⟨⟨0, 0⟩, ⟨0, 0⟩⟩

/-- Per-neighbor separation contribution, the loop body of State::update
(lines 220..228): the difference self minus neighbor, its cubic falloff
factor computed from its length before normalizing, then the normalized
difference scaled by that factor. -/
def sepContrib (s : ℚ → ℚ) (selfLoc nbLoc : Vec2) : Vec2 :=
  let sepVec := selfLoc.sub nbLoc
  let newLength := ((RADIUS - sepVec.length s) / RADIUS) ^ 3
  (sepVec.normalize s).mul newLength

/-- Accumulation loop of State::update (lines 209..232): fold the
separation, alignment and cohesion accumulators over the neighbor index
list, skipping the own index of the agent. -/
def flockAccum (s : ℚ → ℚ) (boids : List Boid) (index : ℕ)
    (neighbors : List ℕ) : Vec2 × Vec2 × Vec2 :=
  let boid := boids.getD index defaultBoid
  neighbors.foldl (fun acc n =>
    if index = n then acc
    else
      let nb := boids.getD n defaultBoid
      (acc.1.add (sepContrib s boid.location nb.location),
       acc.2.1.add nb.vel,
       acc.2.2.add nb.location))
    (⟨0, 0⟩, ⟨0, 0⟩, ⟨0, 0⟩)

/-- Flocking force for one agent, lines 209..247 of State::update: the
accumulators, each divided by the length of the neighbor query result
(self included, no zero guard), weighted 2.0 / 0.5 / 0.6, the cohesion
converted to a direction by subtracting the location of the agent, then
summed. -/
def flockForce (s : ℚ → ℚ) (boids : List Boid) (index : ℕ)
    (neighbors : List ℕ) : Vec2 :=
  let boid := boids.getD index defaultBoid
  let acc := flockAccum s boids index neighbors
  let count : ℚ := neighbors.length
  let separation := (acc.1.div count).mul 2
  let alignment := (acc.2.1.div count).mul 0.5
  let cohesion := ((acc.2.2.div count).sub boid.location).mul 0.6
  (cohesion.add separation).add alignment

/-! f32 rounding model for the partition arithmetic of State::update.
The partition claims quantify over the f32 evaluation of the range
boundaries, so that arithmetic is modelled bit-faithfully: a positive
rational is scaled into the 24-bit significand range [2^23, 2^24) and
rounded to the nearest integer with ties to even, exactly IEEE-754
binary32 round-to-nearest-even in the normal range (the partition path
only ever rounds values of magnitude well inside that range). -/

/-- Round a rational to the nearest integer, ties to even. -/
def rndEven (q : ℚ) : ℤ :=
  let f := ⌊q⌋
  let r := q - (f : ℚ)
  if r < 1 / 2 then f
  else if 1 / 2 < r then f + 1
  else if f % 2 = 0 then f else f + 1

/-- Base-2 logarithm on naturals by explicit fuel, so that the kernel can
reduce it; with fuel at least n it computes the floor of log2 n. -/
def log2Fuel : ℕ → ℕ → ℕ
  | 0, _ => 0
  | fuel + 1, n => if n < 2 then 0 else log2Fuel fuel (n / 2) + 1

/-- Floor of the base-2 logarithm of a positive rational: the unique
e with 2^e ≤ q < 2^(e+1).  The num/den candidate is exact up to one, and
the two comparisons settle it exactly. -/
def qLog2 (q : ℚ) : ℤ :=
  let a := q.num.toNat
  let b := q.den
  let c : ℤ := (log2Fuel a a : ℤ) - (log2Fuel b b : ℤ)
  if q < (2 : ℚ) ^ c then c - 1 else if (2 : ℚ) ^ (c + 1) ≤ q then c + 1 else c

/-- Round a positive rational to the nearest f32 value (24-bit
significand, round to nearest, ties to even, unbounded exponent). -/
def flPos (q : ℚ) : ℚ :=
  let e : ℤ := qLog2 q - 23
  (rndEven (q * (2 : ℚ) ^ (-e)) : ℚ) * (2 : ℚ) ^ e

/-- Round a rational to the nearest f32 value. -/
def fl (q : ℚ) : ℚ :=
  if q = 0 then 0 else if 0 < q then flPos q else -flPos (-q)

/-- boids_per_thread of State::update line 194: boid_count as f32 divided
by thread_count as f32, each conversion and the division rounding to
f32. -/
def bptF32 (N T : ℕ) : ℚ := fl (fl (N : ℚ) / fl (T : ℚ))

/-- A range boundary of State::update line 197: boids_per_thread times
i as f32, the product rounded to f32, then ceil and the cast to usize. -/
def rangeEndF32 (N T i : ℕ) : ℕ := (Int.ceil (fl (bptF32 N T * fl (i : ℚ)))).toNat

/-- The statement that the f32-computed ranges of State::update cover the
index set of a population of size N with worker count T exactly: an index
lies in some assigned range exactly when it is below N. -/
def unionIsExactly (N T : ℕ) : Prop :=
  ∀ k : ℕ, (∃ i, i < T ∧ rangeEndF32 N T i ≤ k ∧ k < rangeEndF32 N T (i + 1)) ↔ k < N

/-- Range boundary with the product ceil(N/T * i) evaluated in exact
rational arithmetic instead of f32. -/
def rangeEndExact (N T i : ℕ) : ℕ := (Int.ceil ((N : ℚ) / (T : ℚ) * (i : ℚ))).toNat

/-! NaN-aware model for the unguarded neighbor-count division.  A value
is either a finite rational or the non-finite marker none; every
non-finite value produced along the modelled path arises from the IEEE
division 0.0/0.0 and is therefore a NaN, which the operations below
propagate exactly as IEEE arithmetic propagates NaN. -/

/-- An f32 value that is either finite or non-finite (NaN). -/
abbrev Fp := Option ℚ

/-- Addition with NaN propagation. -/
def fadd : Fp → Fp → Fp
  | some a, some b => some (a + b)
  | _, _ => none

/-- Subtraction with NaN propagation. -/
def fsub : Fp → Fp → Fp
  | some a, some b => some (a - b)
  | _, _ => none

/-- Multiplication with NaN propagation. -/
def fmul : Fp → Fp → Fp
  | some a, some b => some (a * b)
  | _, _ => none

/-- Division with NaN propagation: a division by zero yields a non-finite
result (0.0/0.0 is NaN), and NaN operands propagate. -/
def fdiv : Fp → Fp → Fp
  | some a, some b => if b = 0 then none else some (a / b)
  | _, _ => none

/-- Square-root oracle lifted to Fp: sqrt(NaN) is NaN. -/
def fsqrt (s : ℚ → ℚ) : Fp → Fp
  | some a => some (s a)
  | none => none

/-- Two-dimensional vector of possibly non-finite f32 components. -/
structure VecF where
  x : Fp
  y : Fp
deriving DecidableEq

/-- Vec2::add over possibly non-finite values. -/
def VecF.add (v o : VecF) : VecF := ⟨fadd v.x o.x, fadd v.y o.y⟩

/-- Vec2::sub over possibly non-finite values. -/
def VecF.sub (v o : VecF) : VecF := ⟨fsub v.x o.x, fsub v.y o.y⟩

/-- Vec2::mul over possibly non-finite values. -/
def VecF.mul (v : VecF) (factor : Fp) : VecF := ⟨fmul v.x factor, fmul v.y factor⟩

/-- Vec2::div over possibly non-finite values. -/
def VecF.div (v : VecF) (factor : Fp) : VecF := ⟨fdiv v.x factor, fdiv v.y factor⟩

/-- Vec2::length over possibly non-finite values. -/
def VecF.length (s : ℚ → ℚ) (v : VecF) : Fp :=
  fsqrt s (fadd (fmul v.x v.x) (fmul v.y v.y))

/-- Vec2::normalize over possibly non-finite values: the zero guard
compares the length against 0.0, a comparison that is false for NaN, so
a NaN length flows into the divisions. -/
def VecF.normalize (s : ℚ → ℚ) (v : VecF) : VecF :=
  let len := v.length s
  let len := if len = some 0 then some 1 else len
  ⟨fdiv v.x len, fdiv v.y len⟩

/-- Injection of a finite vector. -/
def VecF.ofVec2 (v : Boids.Vec2) : VecF := ⟨some v.x, some v.y⟩

/-- Separation loop body of State::update over possibly non-finite
values. -/
def sepContribF (s : ℚ → ℚ) (selfLoc nbLoc : VecF) : VecF :=
  let sepVec := selfLoc.sub nbLoc
  let newLength :=
    fmul (fmul (fdiv (fsub (some Boids.RADIUS) (sepVec.length s)) (some Boids.RADIUS))
               (fdiv (fsub (some Boids.RADIUS) (sepVec.length s)) (some Boids.RADIUS)))
         (fdiv (fsub (some Boids.RADIUS) (sepVec.length s)) (some Boids.RADIUS))
  (sepVec.normalize s).mul newLength

/-- Accumulation loop of State::update over possibly non-finite values. -/
def flockAccumF (s : ℚ → ℚ) (boids : List Boids.Boid) (index : ℕ)
    (neighbors : List ℕ) : VecF × VecF × VecF :=
  let boid := boids.getD index Boids.defaultBoid
  neighbors.foldl (fun acc n =>
    if index = n then acc
    else
      let nb := boids.getD n Boids.defaultBoid
      (VecF.add acc.1 (sepContribF s (VecF.ofVec2 boid.location) (VecF.ofVec2 nb.location)),
       VecF.add acc.2.1 (VecF.ofVec2 nb.vel),
       VecF.add acc.2.2 (VecF.ofVec2 nb.location)))
    ((⟨some 0, some 0⟩ : VecF), (⟨some 0, some 0⟩ : VecF), (⟨some 0, some 0⟩ : VecF))

/-- Flocking force of State::update (lines 209..247) over possibly
non-finite values: accumulators folded over the neighbor list, then each
divided by the self-inclusive neighbor count with no zero guard. -/
def flockForceF (s : ℚ → ℚ) (boids : List Boids.Boid) (index : ℕ)
    (neighbors : List ℕ) : VecF :=
  let boid := boids.getD index Boids.defaultBoid
  let acc := flockAccumF s boids index neighbors
  let count : Fp := some (neighbors.length : ℚ)
  let separation := (acc.1.div count).mul (some 2)
  let alignment := (acc.2.1.div count).mul (some 0.5)
  let cohesion := ((acc.2.2.div count).sub (VecF.ofVec2 boid.location)).mul (some 0.6)
  (cohesion.add separation).add alignment

/-- Velocity after Boid::add_vel over possibly non-finite values: the
force scaled by the factor is added to the velocity, which is then
renormalized. -/
def addVelVelF (s : ℚ → ℚ) (vel : VecF) (v : VecF) (factor : Fp) : VecF :=
  (vel.add (v.mul factor)).normalize s

/-- The vector fed to the final normalization of a frame for one agent:
the velocity right before the normalize inside the wander add_vel at the
end of Boid::update, namely the renormalized post-integration velocity
plus the wander vector scaled by 0.2. -/
def preWanderVec (s : ℚ → ℚ) (b : Boid) (force : Vec2) (r1 r2 : ℚ) : Vec2 :=
  ((((b.add_vel s force 0.6).1.boundary s).integrate).renorm s).vel.add
    ((⟨r1 * 2 - 1, r2 * 2 - 1⟩ : Vec2).mul 0.2)

/-- Cubic boundary repulsion magnitude ((c - 0.8) / 0.2)^3 applied by
Boid::update past an edge, as a function of the crossed coordinate. -/
def boundaryMag (c : ℚ) : ℚ := ((c - 0.8) / 0.2) ^ 3

/-- Square-root oracle used by the concrete witnesses: correct exactly at
the points those witnesses evaluate. -/
def s0 : ℚ → ℚ := fun q =>
  if q = 1 then 1
  else if q = 1 / 40000 then 1 / 200
  else if q = 1 / 2500 then 1 / 50
  else if q = 25 then 5
  else 0

/-! Helper lemmas about normalization shared by several claims. -/

theorem Vec2.length_eq (s : ℚ → ℚ) (v : Vec2) : v.length s = s v.lengthSq := rfl

theorem Vec2.comp_eq_zero_of_lengthSq_eq_zero {v : Vec2} (h : v.lengthSq = 0) :
    v.x = 0 ∧ v.y = 0 := by
  unfold Vec2.lengthSq at h
  constructor
  · have hx : v.x ^ 2 = 0 := by nlinarith [sq_nonneg v.x, sq_nonneg v.y]
    exact pow_eq_zero_iff (two_ne_zero) |>.mp hx
  · have hy : v.y ^ 2 = 0 := by nlinarith [sq_nonneg v.x, sq_nonneg v.y]
    exact pow_eq_zero_iff (two_ne_zero) |>.mp hy

theorem Vec2.normalize_of_sqrt_eq_zero (s : ℚ → ℚ) (v : Vec2)
    (h0 : s v.lengthSq = 0) : v.normalize s = v := by
  unfold Vec2.normalize
  rw [Vec2.length_eq, h0]
  simp

theorem Vec2.normalize_of_sqrt_ne_zero (s : ℚ → ℚ) (v : Vec2)
    (h0 : s v.lengthSq ≠ 0) :
    v.normalize s = ⟨v.x / s v.lengthSq, v.y / s v.lengthSq⟩ := by
  unfold Vec2.normalize
  rw [Vec2.length_eq]
  simp [h0]

theorem Vec2.lengthSq_normalize_eq_one (s : ℚ → ℚ) (v : Vec2)
    (hsq : s v.lengthSq ^ 2 = v.lengthSq) (h0 : s v.lengthSq ≠ 0) :
    (v.normalize s).lengthSq = 1 := by
  rw [Vec2.normalize_of_sqrt_ne_zero s v h0]
  unfold Vec2.lengthSq at hsq h0 ⊢
  field_simp
  linarith [hsq]

/-- C8: Vec2::normalize divides both components by the Euclidean length,
except when that length is exactly zero, in which case the divisor is
substituted by 1 so the vector (necessarily the zero vector) is left
unchanged with both components still zero; for nonzero length the result
is the input divided componentwise by the length, has squared length one,
and is a positive scalar multiple of the input (same direction). -/
theorem c8_normalize (s : ℚ → ℚ) (v : Vec2)
    (hpos : 0 ≤ s v.lengthSq) (hsq : s v.lengthSq ^ 2 = v.lengthSq) :
    (s v.lengthSq = 0 → v.normalize s = v ∧ v.x = 0 ∧ v.y = 0) ∧
    (s v.lengthSq ≠ 0 →
      v.normalize s = ⟨v.x / s v.lengthSq, v.y / s v.lengthSq⟩ ∧
      (v.normalize s).lengthSq = 1 ∧
      ∃ c : ℚ, 0 < c ∧ v.normalize s = v.mul c) := by
  constructor
  · intro h0
    have hq : v.lengthSq = 0 := by rw [← hsq, h0]; ring
    exact ⟨Vec2.normalize_of_sqrt_eq_zero s v h0,
      Vec2.comp_eq_zero_of_lengthSq_eq_zero hq⟩
  · intro h0
    refine ⟨Vec2.normalize_of_sqrt_ne_zero s v h0,
      Vec2.lengthSq_normalize_eq_one s v hsq h0, 1 / s v.lengthSq, ?_, ?_⟩
    · have : 0 < s v.lengthSq := lt_of_le_of_ne hpos (Ne.symm h0)
      positivity
    · rw [Vec2.normalize_of_sqrt_ne_zero s v h0]
      unfold Vec2.mul
      field_simp

/-- C8 witness: normalize at the concrete vector (3, 4), whose length 5
the oracle s0 reports exactly. -/
theorem c8_normalize_witness :
    (⟨3, 4⟩ : Vec2).normalize s0 = ⟨3 / 5, 4 / 5⟩ :=
  ((c8_normalize s0 ⟨3, 4⟩ (by decide) (by decide)).2 (by decide)).1

/-- C1: after the commit phase for one agent (add_vel of the flocking
force with weight 0.6 followed by Boid::update), the final operation is
the normalize inside the wander add_vel; whenever the oracle is a true
square root at the squared length of the vector that normalize receives,
the committed velocity has squared length one, except on the zero-guard
path (length exactly zero), where the committed velocity equals that
pre-normalization vector unchanged. -/
theorem c1_unit_velocity (s : ℚ → ℚ) (b : Boid) (force : Vec2) (r1 r2 : ℚ)
    (hsq : s (preWanderVec s b force r1 r2).lengthSq ^ 2 =
      (preWanderVec s b force r1 r2).lengthSq) :
    (s (preWanderVec s b force r1 r2).lengthSq = 0 →
      (commitBoid s b force r1 r2).vel = preWanderVec s b force r1 r2) ∧
    (s (preWanderVec s b force r1 r2).lengthSq ≠ 0 →
      (commitBoid s b force r1 r2).vel.lengthSq = 1) := by
  have hkey : (commitBoid s b force r1 r2).vel =
      (preWanderVec s b force r1 r2).normalize s := rfl
  constructor
  · intro h0
    rw [hkey]
    exact Vec2.normalize_of_sqrt_eq_zero s _ h0
  · intro h0
    rw [hkey]
    exact Vec2.lengthSq_normalize_eq_one s _ hsq h0

/-- C1 witness: a concrete agent at the origin with unit velocity, zero
flocking force and neutral wander draws ends the frame with squared
velocity length exactly one. -/
theorem c1_unit_velocity_witness :
    (commitBoid s0 ⟨⟨0, 0⟩, ⟨0, 1⟩⟩ ⟨0, 0⟩ (1 / 2) (1 / 2)).vel.lengthSq = 1 :=
  (c1_unit_velocity s0 ⟨⟨0, 0⟩, ⟨0, 1⟩⟩ ⟨0, 0⟩ (1 / 2) (1 / 2) (by decide)).2 (by decide)

/-- C9: Boid::add_vel mutates its vector argument in place to the
argument scaled by the factor, sets the velocity to the normalization of
the old velocity plus that scaled vector, leaves the position untouched,
and consequently the commit phase scales each force-buffer entry by 0.6
as a side effect of applying it. -/
theorem c9_add_vel_effects (s : ℚ → ℚ) (b : Boid) (v force : Vec2)
    (factor r1 r2 : ℚ) :
    (b.add_vel s v factor).2 = v.mul factor ∧
    (b.add_vel s v factor).1.vel = (b.vel.add (v.mul factor)).normalize s ∧
    (b.add_vel s v factor).1.location = b.location ∧
    (commitStep s b force r1 r2).2 = force.mul 0.6 :=
  ⟨rfl, rfl, rfl, rfl⟩

/-- C4: with an empty neighbor query result the three accumulators are
still exactly zero and are divided by the self-inclusive neighbor count
zero with no guard, so each force component is the non-finite result of
the IEEE division 0.0/0.0 (NaN), and applying that force through add_vel
and its normalization leaves both velocity components non-finite. -/
theorem c4_nan_contamination (s : ℚ → ℚ) (boids : List Boid) (index : ℕ)
    (b : Boid) :
    flockAccumF s boids index [] =
      (⟨some 0, some 0⟩, ⟨some 0, some 0⟩, ⟨some 0, some 0⟩) ∧
    (((([] : List ℕ).length : ℚ)) = 0) ∧
    flockForceF s boids index [] = ⟨none, none⟩ ∧
    addVelVelF s (VecF.ofVec2 b.vel) (flockForceF s boids index []) (some 0.6) =
      ⟨none, none⟩ :=
  ⟨rfl, rfl, rfl, rfl⟩

/-- C5: the commit-phase mutations for one agent happen in exactly the
source order: the flocking force through add_vel with weight 0.6, then
the four boundary checks in the order x-low, x-high, y-low, y-high, then
integration (velocity scaled by 0.005 and added to the position), then
renormalization of the velocity, then the wander perturbation through
add_vel with weight 0.2, whose two random components 2r-1 lie in [-1, 1]
for draws r in [0, 1). -/
theorem c5_commit_order (s : ℚ → ℚ) (b : Boid) (force : Vec2) (r1 r2 : ℚ) :
    commitBoid s b force r1 r2 =
      (((((((b.add_vel s force 0.6).1.boundaryX1 s).boundaryX2 s).boundaryY1
        s).boundaryY2 s).integrate.renorm s).add_vel s
          ⟨r1 * 2 - 1, r2 * 2 - 1⟩ 0.2).1 ∧
    (∀ c : Boid, c.integrate = ⟨c.location.add (c.vel.mul 0.005), c.vel.mul 0.005⟩) ∧
    (∀ c : Boid, c.renorm s = ⟨c.location, c.vel.normalize s⟩) ∧
    (∀ c : Boid, ∀ w : Vec2,
      (c.add_vel s w 0.2).1 = ⟨c.location, (c.vel.add (w.mul 0.2)).normalize s⟩) ∧
    (∀ r : ℚ, 0 ≤ r → r < 1 → -1 ≤ r * 2 - 1 ∧ r * 2 - 1 ≤ 1) := by
  refine ⟨rfl, fun c => rfl, fun c => rfl, fun c w => rfl, fun r hr0 hr1 => ?_⟩
  constructor <;> linarith

/-- C5 witness: the wander components for the draw one half lie in the
stated interval. -/
theorem c5_commit_order_witness :
    -1 ≤ (1 / 2 : ℚ) * 2 - 1 ∧ (1 / 2 : ℚ) * 2 - 1 ≤ 1 :=
  (c5_commit_order s0 defaultBoid ⟨0, 0⟩ 0 0).2.2.2.2 (1 / 2) (by decide) (by decide)

theorem Boid.add_vel_fst_location (s : ℚ → ℚ) (b : Boid) (v : Vec2) (f : ℚ) :
    (b.add_vel s v f).1.location = b.location := rfl

/-- C6: each boundary check is a no-op when the coordinate has magnitude
at most 0.8; past an edge it applies add_vel along the inward normal of
that edge with magnitude boundaryMag of the coordinate magnitude, i.e.
((|c| - 0.8) / 0.2)^3; that magnitude is strictly increasing in the
coordinate magnitude beyond 0.8; and an agent past two edges receives
both corrections in sequence. -/
theorem c6_boundary (s : ℚ → ℚ) (b : Boid) :
    (-0.8 ≤ b.location.x → b.boundaryX1 s = b) ∧
    (b.location.x ≤ 0.8 → b.boundaryX2 s = b) ∧
    (-0.8 ≤ b.location.y → b.boundaryY1 s = b) ∧
    (b.location.y ≤ 0.8 → b.boundaryY2 s = b) ∧
    (b.location.x < -0.8 →
      b.boundaryX1 s = (b.add_vel s ⟨1, 0⟩ (boundaryMag (-b.location.x))).1) ∧
    (0.8 < b.location.x →
      b.boundaryX2 s = (b.add_vel s ⟨-1, 0⟩ (boundaryMag b.location.x)).1) ∧
    (b.location.y < -0.8 →
      b.boundaryY1 s = (b.add_vel s ⟨0, 1⟩ (boundaryMag (-b.location.y))).1) ∧
    (0.8 < b.location.y →
      b.boundaryY2 s = (b.add_vel s ⟨0, -1⟩ (boundaryMag b.location.y)).1) ∧
    (∀ c d : ℚ, 0.8 < c → c < d → boundaryMag c < boundaryMag d) ∧
    (0.8 < b.location.x → 0.8 < b.location.y →
      b.boundary s = (((b.add_vel s ⟨-1, 0⟩ (boundaryMag b.location.x)).1).add_vel
        s ⟨0, -1⟩ (boundaryMag b.location.y)).1) := by
  refine ⟨fun h => ?_, fun h => ?_, fun h => ?_, fun h => ?_,
    fun h => ?_, fun h => ?_, fun h => ?_, fun h => ?_, fun c d hc hcd => ?_,
    fun hx hy => ?_⟩
  · exact if_neg (not_lt.mpr h)
  · exact if_neg (not_lt.mpr h)
  · exact if_neg (not_lt.mpr h)
  · exact if_neg (not_lt.mpr h)
  · exact if_pos h
  · exact if_pos h
  · exact if_pos h
  · exact if_pos h
  · unfold boundaryMag
    have e1 : (c - 0.8) / 0.2 = 5 * (c - 0.8) := by ring
    have e2 : (d - 0.8) / 0.2 = 5 * (d - 0.8) := by ring
    rw [e1, e2]
    have h1 : (0 : ℚ) ≤ 5 * (c - 0.8) := by linarith
    have h2 : 5 * (c - 0.8) < 5 * (d - 0.8) := by linarith
    exact pow_lt_pow_left₀ h2 h1 (by norm_num)
  · unfold Boid.boundary
    rw [Boid.boundaryX1, if_neg (by rw [not_lt]; linarith)]
    rw [Boid.boundaryX2, if_pos hx]
    rw [Boid.boundaryY1, Boid.add_vel_fst_location, if_neg (by rw [not_lt]; linarith)]
    rw [Boid.boundaryY2, Boid.add_vel_fst_location, if_pos hy]
    rfl

/-- C6 witness: an agent past both high edges at (0.9, 0.9) receives
exactly the two inward corrections in sequence. -/
theorem c6_boundary_witness :
    (⟨⟨0.9, 0.9⟩, ⟨0, 1⟩⟩ : Boid).boundary s0 =
      ((((⟨⟨0.9, 0.9⟩, ⟨0, 1⟩⟩ : Boid).add_vel s0 ⟨-1, 0⟩ (boundaryMag 0.9)).1).add_vel
        s0 ⟨0, -1⟩ (boundaryMag 0.9)).1 :=
  (c6_boundary s0 ⟨⟨0.9, 0.9⟩, ⟨0, 1⟩⟩).2.2.2.2.2.2.2.2.2 (by decide) (by decide)

/-- C7: when the oracle reports the true distance d between an agent and
a neighbor with 0 < d, the per-neighbor separation contribution is the
unit vector from the neighbor toward the agent scaled by
((RADIUS - d) / RADIUS)^3; that scale factor is strictly decreasing as d
increases toward RADIUS and is zero at d = RADIUS. -/
theorem c7_separation (s : ℚ → ℚ) (a nb : Vec2) (d : ℚ)
    (hs : s ((a.sub nb).lengthSq) = d) (hd : 0 < d)
    (hdist : d ^ 2 = (a.sub nb).lengthSq) :
    sepContrib s a nb = ((a.sub nb).mul (1 / d)).mul (((RADIUS - d) / RADIUS) ^ 3) ∧
    ((a.sub nb).mul (1 / d)).lengthSq = 1 ∧
    (∀ d1 d2 : ℚ, 0 < d1 → d1 < d2 → d2 ≤ RADIUS →
      ((RADIUS - d2) / RADIUS) ^ 3 < ((RADIUS - d1) / RADIUS) ^ 3) ∧
    ((RADIUS - RADIUS) / RADIUS) ^ 3 = 0 := by
  have hd0 : d ≠ 0 := ne_of_gt hd
  refine ⟨?_, ?_, ?_, by norm_num⟩
  · unfold sepContrib
    simp only [Vec2.length_eq, hs]
    rw [Vec2.normalize_of_sqrt_ne_zero s (a.sub nb) (by rw [hs]; exact hd0), hs]
    unfold Vec2.mul
    ext <;> dsimp only <;> ring
  · unfold Vec2.mul Vec2.lengthSq
    unfold Vec2.lengthSq at hdist
    field_simp
    linarith [hdist]
  · intro d1 d2 h1 h12 h2R
    have hR : (RADIUS : ℚ) = 3 / 100 := rfl
    have e1 : (RADIUS - d1) / RADIUS = (100 / 3) * (3 / 100 - d1) := by
      rw [hR]; ring
    have e2 : (RADIUS - d2) / RADIUS = (100 / 3) * (3 / 100 - d2) := by
      rw [hR]; ring
    rw [e1, e2]
    have hnn : (0 : ℚ) ≤ (100 / 3) * (3 / 100 - d2) := by
      rw [hR] at h2R; nlinarith
    have hlt : (100 / 3) * (3 / 100 - d2) < (100 / 3) * (3 / 100 - d1) := by
      nlinarith
    exact pow_lt_pow_left₀ hlt hnn (by norm_num)

/-- C7 witness: agent at (0.02, 0) and neighbor at the origin, distance
0.02, which the oracle s0 reports exactly. -/
theorem c7_separation_witness :
    sepContrib s0 ⟨1 / 50, 0⟩ ⟨0, 0⟩ =
      (((⟨1 / 50, 0⟩ : Vec2).sub ⟨0, 0⟩).mul (1 / (1 / 50))).mul
        (((RADIUS - 1 / 50) / RADIUS) ^ 3) :=
  (c7_separation s0 ⟨1 / 50, 0⟩ ⟨0, 0⟩ (1 / 50) (by decide) (by decide) (by decide)).1

/-- C3 counterexample: an isolated agent at (1/2, 0) whose neighbor query
returns only itself receives the nonzero composite force (-3/10, 0), and
adding that force scaled by 0.6 to its velocity changes the velocity, so
the flocking force does contribute to its motion, contrary to the
claim. -/
theorem c3_cex :
    flockForce s0 [⟨⟨1 / 2, 0⟩, ⟨0, 1⟩⟩] 0 [0] = ⟨-(3 / 10), 0⟩ ∧
    (⟨-(3 / 10), 0⟩ : Vec2) ≠ ⟨0, 0⟩ ∧
    ((⟨0, 1⟩ : Vec2).add ((⟨-(3 / 10), 0⟩ : Vec2).mul 0.6)) ≠ ⟨0, 1⟩ := by
  decide

/-- C3 amended: for an agent whose neighbor query returns only its own
index, the separation, alignment and cohesion accumulators all stay zero,
but the composite flocking force is not zero: the cohesion term divides
zero by the count one and subtracts the location of the agent, so the
force equals the location of the agent scaled by -0.6, an origin-directed pull that
vanishes only at the origin. -/
theorem c3_amended (s : ℚ → ℚ) (boids : List Boid) (index : ℕ) (b : Boid)
    (hb : boids.getD index defaultBoid = b) :
    flockAccum s boids index [index] = (⟨0, 0⟩, ⟨0, 0⟩, ⟨0, 0⟩) ∧
    flockForce s boids index [index] = b.location.mul (-0.6) := by
  constructor
  · unfold flockAccum
    simp
  · unfold flockForce flockAccum
    rw [hb]
    ext <;> simp [Vec2.add, Vec2.sub, Vec2.mul, Vec2.div]

/-- C3 amended witness: the concrete isolated agent at (1/2, 0). -/
theorem c3_amended_witness :
    flockForce s0 [⟨⟨1 / 2, 0⟩, ⟨0, 1⟩⟩] 0 [0] =
      (⟨1 / 2, 0⟩ : Vec2).mul (-0.6) :=
  (c3_amended s0 [⟨⟨1 / 2, 0⟩, ⟨0, 1⟩⟩] 0 ⟨⟨1 / 2, 0⟩, ⟨0, 1⟩⟩ (by decide)).2

/-- C10 counterexample: the draw r1 = r2 = 0 is admissible (the rand
distribution includes 0) and produces velocity (-1, -1) with squared
length exactly 2, so the initial velocity length is exactly sqrt 2, not
inside [0, sqrt 2) as claimed. -/
theorem c10_cex :
    ((0 : ℚ) ≤ 0 ∧ (0 : ℚ) < 1) ∧
    (Boid.new_random 0 0).vel = ⟨-1, -1⟩ ∧
    (Boid.new_random 0 0).vel.lengthSq = 2 ∧
    ¬ ((Boid.new_random 0 0).vel.lengthSq < 2) := by
  decide

/-- C10 amended: every agent from Boid::new_random has position exactly
(0, 0) and velocity components 2r-1 in [-1, 1) for draws r in [0, 1); the
velocity is not normalized: its squared length lies in [0, 2] (so the
length lies in [0, sqrt 2], the supremum attained at the draw (0, 0)),
and it can be zero or non-unit, so the unit-velocity invariant holds only
after the first update cycle. -/
theorem c10_amended (r1 r2 : ℚ) (h1 : 0 ≤ r1) (h2 : r1 < 1)
    (h3 : 0 ≤ r2) (h4 : r2 < 1) :
    (Boid.new_random r1 r2).location = ⟨0, 0⟩ ∧
    (Boid.new_random r1 r2).vel = ⟨r1 * 2 - 1, r2 * 2 - 1⟩ ∧
    (-1 ≤ (Boid.new_random r1 r2).vel.x ∧ (Boid.new_random r1 r2).vel.x < 1) ∧
    (-1 ≤ (Boid.new_random r1 r2).vel.y ∧ (Boid.new_random r1 r2).vel.y < 1) ∧
    (0 ≤ (Boid.new_random r1 r2).vel.lengthSq ∧
      (Boid.new_random r1 r2).vel.lengthSq ≤ 2) ∧
    (∃ a b : ℚ, (0 ≤ a ∧ a < 1) ∧ (0 ≤ b ∧ b < 1) ∧
      (Boid.new_random a b).vel.lengthSq = 0) ∧
    (∃ a b : ℚ, (0 ≤ a ∧ a < 1) ∧ (0 ≤ b ∧ b < 1) ∧
      (Boid.new_random a b).vel.lengthSq = 2) ∧
    (∃ a b : ℚ, (0 ≤ a ∧ a < 1) ∧ (0 ≤ b ∧ b < 1) ∧
      (Boid.new_random a b).vel.lengthSq ≠ 1) := by
  refine ⟨rfl, rfl,
    ⟨by show (-1 : ℚ) ≤ r1 * 2 - 1; linarith, by show r1 * 2 - 1 < (1 : ℚ); linarith⟩,
    ⟨by show (-1 : ℚ) ≤ r2 * 2 - 1; linarith, by show r2 * 2 - 1 < (1 : ℚ); linarith⟩,
    ⟨?_, ?_⟩, ⟨1 / 2, 1 / 2, by norm_num, by norm_num, by decide⟩,
    ⟨0, 0, by norm_num, by norm_num, by decide⟩,
    ⟨1 / 2, 1 / 2, by norm_num, by norm_num, by decide⟩⟩
  · unfold Boid.new_random Vec2.lengthSq
    positivity
  · unfold Boid.new_random Vec2.lengthSq
    simp only
    nlinarith [mul_nonneg (by linarith : (0 : ℚ) ≤ 1 - (r1 * 2 - 1))
        (by linarith : (0 : ℚ) ≤ 1 + (r1 * 2 - 1)),
      mul_nonneg (by linarith : (0 : ℚ) ≤ 1 - (r2 * 2 - 1))
        (by linarith : (0 : ℚ) ≤ 1 + (r2 * 2 - 1))]

/-- C10 amended witness: the draw (1/2, 1/2) gives an agent at the origin
with zero velocity. -/
theorem c10_amended_witness :
    (Boid.new_random (1 / 2) (1 / 2)).location = ⟨0, 0⟩ :=
  (c10_amended (1 / 2) (1 / 2) (by decide) (by decide) (by decide) (by decide)).1

/-- C2 counterexample: with population size 3 and worker count 21 the
f32-evaluated boundaries end at ceil(fl(fl(3/21) * 21)) = 4, so the union
of the assigned ranges is not [0, 3): the nonexistent agent index 3 falls
inside the last range. -/
theorem c2_cex : rangeEndF32 3 21 21 = 4 ∧ ¬ unionIsExactly 3 21 := by
  refine ⟨by decide, fun h => ?_⟩
  have h3 : (3 : ℕ) < 3 := (h 3).mp ⟨20, by decide⟩
  exact absurd h3 (by decide)

theorem rangeEndExact_zero (N T : ℕ) : rangeEndExact N T 0 = 0 := by
  unfold rangeEndExact
  simp

theorem rangeEndExact_last (N T : ℕ) (hT : 1 ≤ T) : rangeEndExact N T T = N := by
  unfold rangeEndExact
  have hT0 : (T : ℚ) ≠ 0 := Nat.cast_ne_zero.mpr (by omega)
  rw [div_mul_cancel₀ _ hT0]
  simp

theorem rangeEndExact_mono (N T : ℕ) {i j : ℕ} (hij : i ≤ j) :
    rangeEndExact N T i ≤ rangeEndExact N T j := by
  unfold rangeEndExact
  have h1 : ((N : ℚ) / T) * i ≤ ((N : ℚ) / T) * j := by
    apply mul_le_mul_of_nonneg_left (by exact_mod_cast hij)
    positivity
  exact Int.toNat_le_toNat (Int.ceil_le_ceil h1)

/-- C2 amended: with the boundary products ceil(N/T * i) evaluated in
exact arithmetic, the ranges start at 0, end at N, are monotone (hence
contiguous by construction and pairwise non-overlapping), and every index
below N is assigned to exactly one worker while no assigned index reaches
N, for every population size N and worker count T at least 1. -/
theorem c2_partition_exact (N T : ℕ) (hT : 1 ≤ T) :
    rangeEndExact N T 0 = 0 ∧
    rangeEndExact N T T = N ∧
    (∀ i j, i ≤ j → rangeEndExact N T i ≤ rangeEndExact N T j) ∧
    (∀ k, k < N →
      ∃! i, i < T ∧ rangeEndExact N T i ≤ k ∧ k < rangeEndExact N T (i + 1)) ∧
    (∀ k i, i < T → rangeEndExact N T i ≤ k → k < rangeEndExact N T (i + 1) →
      k < N) := by
  refine ⟨rangeEndExact_zero N T, rangeEndExact_last N T hT,
    fun i j hij => rangeEndExact_mono N T hij, ?_, ?_⟩
  · intro k hk
    have hP0 : rangeEndExact N T 0 ≤ k := by rw [rangeEndExact_zero]; omega
    have hPi0 : rangeEndExact N T
        (Nat.findGreatest (fun i => rangeEndExact N T i ≤ k) (T - 1)) ≤ k :=
      Nat.findGreatest_spec (P := fun i => rangeEndExact N T i ≤ k) (m := 0)
        (n := T - 1) (Nat.zero_le _) hP0
    have hle : Nat.findGreatest (fun i => rangeEndExact N T i ≤ k) (T - 1) ≤ T - 1 :=
      Nat.findGreatest_le (P := fun i => rangeEndExact N T i ≤ k) (T - 1)
    have hup : k < rangeEndExact N T
        (Nat.findGreatest (fun i => rangeEndExact N T i ≤ k) (T - 1) + 1) := by
      by_contra hcon
      push_neg at hcon
      rcases Nat.lt_or_ge
        (Nat.findGreatest (fun i => rangeEndExact N T i ≤ k) (T - 1) + 1) T with hlt | hge
      · exact Nat.findGreatest_is_greatest (P := fun i => rangeEndExact N T i ≤ k)
          (n := T - 1)
          (k := Nat.findGreatest (fun i => rangeEndExact N T i ≤ k) (T - 1) + 1)
          (Nat.lt_succ_self _) (by omega) hcon
      · have hEq : Nat.findGreatest (fun i => rangeEndExact N T i ≤ k) (T - 1) + 1 = T := by
          omega
        rw [hEq, rangeEndExact_last N T hT] at hcon
        omega
    refine ⟨Nat.findGreatest (fun i => rangeEndExact N T i ≤ k) (T - 1),
      ⟨by omega, hPi0, hup⟩, ?_⟩
    rintro j ⟨hjT, hj1, hj2⟩
    by_contra hne
    rcases Nat.lt_or_ge j
      (Nat.findGreatest (fun i => rangeEndExact N T i ≤ k) (T - 1)) with h | h
    · have hm : rangeEndExact N T (j + 1) ≤ rangeEndExact N T
          (Nat.findGreatest (fun i => rangeEndExact N T i ≤ k) (T - 1)) :=
        rangeEndExact_mono N T (by omega)
      omega
    · have hm : rangeEndExact N T
          (Nat.findGreatest (fun i => rangeEndExact N T i ≤ k) (T - 1) + 1) ≤
          rangeEndExact N T j :=
        rangeEndExact_mono N T (by omega)
      omega
  · intro k i hiT h1 h2
    have hm : rangeEndExact N T (i + 1) ≤ rangeEndExact N T T :=
      rangeEndExact_mono N T (by omega)
    rw [rangeEndExact_last N T hT] at hm
    omega

/-- C2 amended witness: five agents over three workers end exactly at
five in exact arithmetic. -/
theorem c2_partition_exact_witness : rangeEndExact 5 3 3 = 5 :=
  (c2_partition_exact 5 3 (by decide)).2.1

end Boids
